import Mathlib

/-!
# Butterfly pattern printer (`Project1/Butterfly.cpp`)

A shallow embedding of `main` of `Butterfly.cpp` and a verification of its
output contract.

Modelling conventions.

* The standard output stream `cout` is the list of characters written so far;
  `cout << "*"`, `cout << " "` and `cout << endl` each append one character
  (`endl` appends the newline character; flushing has no effect on the
  contents of the stream).
* `int` values are mathematical integers (`Int`); `/` on `int` is the C++
  division that truncates toward zero, `Int.tdiv`.  The embedding describes
  the program on every run in which no `int` expression overflows (signed
  overflow is undefined behaviour in C++); for the 32-bit `int` that is every
  input except `2^31 - 1`, where `n + 1` overflows.
* The `for` loops are embedded as recursive functions that test the loop
  condition, run the body and step the counter, exactly as the source does.
* `system("pause")` starts a separate command; it writes nothing through
  `cout` and its result is discarded, so it does not change the stream.
* `cin >> n` is an `Extraction`: the integer parsed, or a failure that leaves
  some value in `n`; `main` never tests which.
* The 32-bit `int` is treated by a second embedding, `renderM`, in which every
  `int` expression goes through an arithmetic `ar`: `exact` (unbounded),
  `checked` (overflow is a fault) or `wrapped` (two's-complement wrap-around).
  Its loops carry a budget of tests, since a wrapped counter need not stop.
-/

namespace Butterfly

/-- The stream `cout`: the characters written so far, oldest first. -/
abbrev Stream := List Char

/-- Writing one character to the stream (`cout << "*"`, `cout << " "`). -/
def put (c : Char) (out : Stream) : Stream := out ++ [c]

/-- The statement `cout << endl`: the line terminator is written. -/
def endl (out : Stream) : Stream := put '\n' out

/-- The loop `for (int k = lo; k <= hi; k++) body`, started with counter `k`. -/
def forUp {σ : Type} (k hi : Int) (body : Int → σ → σ) (s : σ) : σ :=
  if k ≤ hi then forUp (k + 1) hi body (body k s) else s
termination_by (hi + 1 - k).toNat
decreasing_by omega

/-- The loop `for (int k = hi; k >= lo; k--) body`, started with counter `k`. -/
def forDown {σ : Type} (k lo : Int) (body : Int → σ → σ) (s : σ) : σ :=
  if k ≥ lo then forDown (k - 1) lo body (body k s) else s
termination_by (k + 1 - lo).toNat
decreasing_by omega

/-- The value `mid = (n + 1) / 2` of line 7, with C++ truncating division. -/
def mid (n : Int) : Int := Int.tdiv (n + 1) 2

/-- Body of the first outer loop (lines 9-18): one row of the upper triangle. -/
def upperRow (n j : Int) (out : Stream) : Stream :=
  let out := forUp 1 j (fun _ o => put '*' o) out
  let out := forUp 1 ((n + 1) - (2 * j)) (fun _ o => put ' ' o) out
  let out := forUp 1 j (fun _ o => put '*' o) out
  endl out

/-- Body of the second outer loop (lines 21-30): one row of the lower triangle. -/
def lowerRow (n mid j : Int) (out : Stream) : Stream :=
  let out := forDown (mid - 1) j (fun _ o => put '*' o) out
  let out := forDown n ((n + 1) - (2 * j)) (fun _ o => put ' ' o) out
  let out := forUp j (mid - 1) (fun _ o => put '*' o) out
  endl out

/-- Lines 7-31: everything `main` writes to `cout` once `n` has been read. -/
def render (n : Int) : Stream :=
  let mid := mid n
  let out := forUp 1 mid (fun j o => upperRow n j o) []
  forUp 1 (mid - 1) (fun j o => lowerRow n mid j o) out

/-- The function `main` on the value `n` read by `cin >> n`: the contents of
`cout` at exit and the exit status (`return 0`). -/
def main (n : Int) : Stream × Int :=
  let out := render n
  (out, 0)

/-- The lines of an output: the runs of characters between line terminators,
in order.  Text after the last terminator, if any, counts as a last line. -/
def lines : Stream → List (List Char)
  | [] => []
  | c :: cs =>
    if c = '\n' then [] :: lines cs
    else match lines cs with
      | [] => [[c]]
      | l :: ls => (c :: l) :: ls

/-- The stream made of the given lines, each followed by its terminator. -/
def unlines : List (List Char) → Stream
  | [] => []
  | l :: ls => l ++ '\n' :: unlines ls

/-- Characters of row `j` of the upper triangle, terminator excluded. -/
def upperLine (n j : Int) : List Char :=
  List.replicate j.toNat '*' ++ List.replicate ((n + 1) - 2 * j).toNat ' '
    ++ List.replicate j.toNat '*'

/-- Characters of row `j` of the lower triangle, terminator excluded. -/
def lowerLine (m j : Int) : List Char :=
  List.replicate (m - j).toNat '*' ++ List.replicate (2 * j).toNat ' '
    ++ List.replicate (m - j).toNat '*'

/-- The rows of the upper triangle, `j = 1, ..., mid`, in the order written. -/
def upperLines (n : Int) : List (List Char) :=
  (List.range (mid n).toNat).map (fun (i : Nat) => upperLine n (1 + (i : Int)))

/-- The rows of the lower triangle, `j = 1, ..., mid - 1`, in the order written. -/
def lowerLines (n : Int) : List (List Char) :=
  (List.range (mid n - 1).toNat).map (fun (i : Nat) => lowerLine (mid n) (1 + (i : Int)))

/-- Lines 7-31 started on a stream that already holds `out0` (text written
earlier to the same console): the same statements as `render`. -/
def renderFrom (n : Int) (out0 : Stream) : Stream :=
  let mid := mid n
  let out := forUp 1 mid (fun j o => upperRow n j o) out0
  forUp 1 (mid - 1) (fun j o => lowerRow n mid j o) out

/-- What the statement `cin >> n` of line 6 does to the variable `n`: either an
integer is parsed and stored, or no integer can be parsed; then `n` holds
`left` afterwards (the extraction stores 0 when the text is not a number). -/
inductive Extraction where
  | value (v : Int)
  | failure (left : Int)

/-- The value of `n` after line 6. -/
def Extraction.stored : Extraction → Int
  | .value v => v
  | .failure left => left

/-- The whole of `main`, lines 5-33: the result of line 6 is not tested, the
loops run on whatever `n` holds, and the function returns 0. -/
def program (e : Extraction) : Stream × Int :=
  main e.stored

/-- Why a run on machine integers stops without a result. -/
inductive Fault where
  | overflow
  | fuel
  deriving DecidableEq

/-- An arithmetic: what an `int` expression yields when its mathematical value
is `x`. -/
abbrev Arith := Int → Except Fault Int

/-- Unbounded integers: every value is kept as it is. -/
def exact : Arith := fun x => .ok x

/-- Overflow detection for the 32-bit `int`: a value outside
`-2^31 .. 2^31 - 1` is reported as `Fault.overflow`. -/
def checked : Arith := fun x =>
  if -2147483648 ≤ x ∧ x ≤ 2147483647 then .ok x else .error .overflow

/-- Two's-complement wrap-around of a value into `-2^31 .. 2^31 - 1`. -/
def wrap (x : Int) : Int := (x + 2147483648) % 4294967296 - 2147483648

/-- The 32-bit `int` with wrap-around arithmetic. -/
def wrapped : Arith := fun x => .ok (wrap x)

/-- The loop `for (int k = lo; k <= hi; k++) body` under the arithmetic `ar`,
started with counter `k`; `hi` is the result of evaluating the bound expression,
looked at on every test, and `fuel` bounds the number of tests. -/
def forUpM (ar : Arith) (fuel : Nat) (k : Int) (hi : Except Fault Int)
    (body : Int → Stream → Except Fault Stream) (s : Stream) : Except Fault Stream :=
  match fuel with
  | 0 => .error .fuel
  | fuel + 1 =>
    match hi with
    | .error e => .error e
    | .ok h =>
      if k ≤ h then
        match body k s with
        | .error e => .error e
        | .ok s' =>
          match ar (k + 1) with
          | .error e => .error e
          | .ok k' => forUpM ar fuel k' hi body s'
      else .ok s

/-- The loop `for (int k = hi; k >= lo; k--) body` under the arithmetic `ar`. -/
def forDownM (ar : Arith) (fuel : Nat) (k : Int) (lo : Except Fault Int)
    (body : Int → Stream → Except Fault Stream) (s : Stream) : Except Fault Stream :=
  match fuel with
  | 0 => .error .fuel
  | fuel + 1 =>
    match lo with
    | .error e => .error e
    | .ok l =>
      if k ≥ l then
        match body k s with
        | .error e => .error e
        | .ok s' =>
          match ar (k - 1) with
          | .error e => .error e
          | .ok k' => forDownM ar fuel k' lo body s'
      else .ok s

/-- The bound `((n+1) - (2 * j))` of lines 12 and 24 under the arithmetic `ar`. -/
def spaceBound (ar : Arith) (n j : Int) : Except Fault Int :=
  match ar (n + 1) with
  | .error e => .error e
  | .ok a =>
    match ar (2 * j) with
    | .error e => .error e
    | .ok b => ar (a - b)

/-- Lines 9-18 under the arithmetic `ar`. -/
def upperRowM (ar : Arith) (fuel : Nat) (n j : Int) (out : Stream) : Except Fault Stream :=
  match forUpM ar fuel 1 (.ok j) (fun _ o => .ok (put '*' o)) out with
  | .error e => .error e
  | .ok out =>
    match forUpM ar fuel 1 (spaceBound ar n j) (fun _ o => .ok (put ' ' o)) out with
    | .error e => .error e
    | .ok out =>
      match forUpM ar fuel 1 (.ok j) (fun _ o => .ok (put '*' o)) out with
      | .error e => .error e
      | .ok out => .ok (endl out)

/-- Lines 21-30 under the arithmetic `ar`. -/
def lowerRowM (ar : Arith) (fuel : Nat) (n mid j : Int) (out : Stream) :
    Except Fault Stream :=
  match ar (mid - 1) with
  | .error e => .error e
  | .ok k0 =>
    match forDownM ar fuel k0 (.ok j) (fun _ o => .ok (put '*' o)) out with
    | .error e => .error e
    | .ok out =>
      match forDownM ar fuel n (spaceBound ar n j) (fun _ o => .ok (put ' ' o)) out with
      | .error e => .error e
      | .ok out =>
        match forUpM ar fuel j (ar (mid - 1)) (fun _ o => .ok (put '*' o)) out with
        | .error e => .error e
        | .ok out => .ok (endl out)

/-- Lines 7-31 under the arithmetic `ar`: every `int` expression (`n + 1`,
`(n + 1) / 2`, `2 * j`, `(n+1) - (2 * j)`, `mid - 1`, each `k++`, `k--`, `l++`,
`j++`) goes through `ar`. -/
def renderM (ar : Arith) (fuel : Nat) (n : Int) : Except Fault Stream :=
  match ar (n + 1) with
  | .error e => .error e
  | .ok a =>
    match ar (Int.tdiv a 2) with
    | .error e => .error e
    | .ok mid =>
      match forUpM ar fuel 1 (.ok mid) (fun j o => upperRowM ar fuel n j o) [] with
      | .error e => .error e
      | .ok out => forUpM ar fuel 1 (ar (mid - 1)) (fun j o => lowerRowM ar fuel n mid j o) out

/-- Line 7, `int mid = (n + 1) / 2;`, under the arithmetic `ar`. -/
def midM (ar : Arith) (n : Int) : Except Fault Int :=
  match ar (n + 1) with
  | .error e => .error e
  | .ok a => ar (Int.tdiv a 2)

theorem forUp_of_lt {σ : Type} (k hi : Int) (body : Int → σ → σ) (s : σ) (h : hi < k) :
    forUp k hi body s = s := by
  rw [forUp]; simp [not_le.mpr h]

theorem forUp_step {σ : Type} (k hi : Int) (body : Int → σ → σ) (s : σ) (h : k ≤ hi) :
    forUp k hi body s = forUp (k + 1) hi body (body k s) := by
  rw [forUp]; simp [h]

theorem forDown_of_lt {σ : Type} (k lo : Int) (body : Int → σ → σ) (s : σ) (h : k < lo) :
    forDown k lo body s = s := by
  rw [forDown]; simp [not_le.mpr h]

theorem forDown_step {σ : Type} (k lo : Int) (body : Int → σ → σ) (s : σ) (h : lo ≤ k) :
    forDown k lo body s = forDown (k - 1) lo body (body k s) := by
  rw [forDown]; simp [h]

/-- An upward loop runs its body on `k, k+1, ..., hi` in this order. -/
theorem forUp_foldl {σ : Type} (m : Nat) : ∀ (k hi : Int) (body : Int → σ → σ) (s : σ),
    (hi + 1 - k).toNat = m →
    forUp k hi body s = (List.range m).foldl (fun s (i : Nat) => body (k + (i : Int)) s) s := by
  induction m with
  | zero =>
    intro k hi body s h
    rw [forUp_of_lt k hi body s (by omega)]; rfl
  | succ m ih =>
    intro k hi body s h
    rw [forUp_step k hi body s (by omega), ih (k + 1) hi body (body k s) (by omega),
      List.range_succ_eq_map, List.foldl_cons, List.foldl_map]
    simp only [Nat.cast_zero, add_zero, Nat.cast_succ]
    congr 1
    funext s i
    congr 1
    ring

/-- A downward loop runs its body on `k, k-1, ..., lo` in this order. -/
theorem forDown_foldl {σ : Type} (m : Nat) : ∀ (k lo : Int) (body : Int → σ → σ) (s : σ),
    (k + 1 - lo).toNat = m →
    forDown k lo body s = (List.range m).foldl (fun s (i : Nat) => body (k - (i : Int)) s) s := by
  induction m with
  | zero =>
    intro k lo body s h
    rw [forDown_of_lt k lo body s (by omega)]; rfl
  | succ m ih =>
    intro k lo body s h
    rw [forDown_step k lo body s (by omega), ih (k - 1) lo body (body k s) (by omega),
      List.range_succ_eq_map, List.foldl_cons, List.foldl_map]
    simp only [Nat.cast_zero, sub_zero, Nat.cast_succ]
    congr 1
    funext s i
    congr 1
    ring

theorem foldl_put (c : Char) (m : Nat) (f : Nat → Int) (out : Stream) :
    (List.range m).foldl (fun o i => (fun _ o => put c o) (f i) o) out
      = out ++ List.replicate m c := by
  induction m with
  | zero => simp
  | succ m ih =>
    rw [List.range_succ, List.foldl_append, ih]
    simp [put, List.replicate_succ']

theorem forUp_put (c : Char) (k hi : Int) (out : Stream) :
    forUp k hi (fun _ o => put c o) out = out ++ List.replicate (hi + 1 - k).toNat c := by
  rw [forUp_foldl _ k hi _ out rfl]
  exact foldl_put c _ (fun i => k + (i : Int)) out

theorem forDown_put (c : Char) (k lo : Int) (out : Stream) :
    forDown k lo (fun _ o => put c o) out = out ++ List.replicate (k + 1 - lo).toNat c := by
  rw [forDown_foldl _ k lo _ out rfl]
  exact foldl_put c _ (fun i => k - (i : Int)) out

/-- One pass of the first outer loop appends one upper row and its terminator. -/
theorem upperRow_eq (n j : Int) (out : Stream) :
    upperRow n j out = out ++ (upperLine n j ++ ['\n']) := by
  simp only [upperRow, endl, forUp_put, upperLine]
  have h : j + 1 - 1 = j := by ring
  have h2 : n + 1 - 2 * j + 1 - 1 = n + 1 - 2 * j := by ring
  rw [h, h2]
  simp [put, List.append_assoc]

/-- One pass of the second outer loop appends one lower row and its terminator. -/
theorem lowerRow_eq (n m j : Int) (out : Stream) :
    lowerRow n m j out = out ++ (lowerLine m j ++ ['\n']) := by
  simp only [lowerRow, endl, forUp_put, forDown_put, lowerLine]
  have h : m - 1 + 1 - j = m - j := by ring
  have h2 : n + 1 - (n + 1 - 2 * j) = 2 * j := by ring
  rw [h, h2]
  simp [put, List.append_assoc]

theorem unlines_append (a b : List (List Char)) : unlines (a ++ b) = unlines a ++ unlines b := by
  induction a with
  | nil => rfl
  | cons l ls ih => simp [unlines, ih]

theorem foldl_rows (f : Nat → List Char) (m : Nat) (out : Stream) :
    (List.range m).foldl (fun o i => o ++ (f i ++ ['\n'])) out
      = out ++ unlines ((List.range m).map f) := by
  induction m with
  | zero => simp [unlines]
  | succ m ih =>
    rw [List.range_succ, List.foldl_append, ih, List.map_append, unlines_append]
    simp [unlines]

/-- The stream written by `main` is the upper rows followed by the lower rows,
each row followed by its terminator. -/
theorem render_eq (n : Int) : render n = unlines (upperLines n ++ lowerLines n) := by
  unfold render
  simp only
  rw [forUp_foldl _ 1 (mid n) _ _ rfl, forUp_foldl _ 1 (mid n - 1) _ _ rfl]
  simp only [upperRow_eq, lowerRow_eq]
  rw [foldl_rows (fun i => upperLine n (1 + (i : Int))),
    foldl_rows (fun i => lowerLine (mid n) (1 + (i : Int)))]
  have h1 : mid n + 1 - 1 = mid n := by ring
  have h2 : mid n - 1 + 1 - 1 = mid n - 1 := by ring
  rw [h1, h2, unlines_append]
  simp [upperLines, lowerLines]

theorem lines_append_newline (l : List Char) (rest : Stream) (h : '\n' ∉ l) :
    lines (l ++ '\n' :: rest) = l :: lines rest := by
  induction l with
  | nil => simp [lines]
  | cons c cs ih =>
    have hc : c ≠ '\n' := fun e => h (by simp [e])
    have hcs : '\n' ∉ cs := fun e => h (by simp [e])
    simp [lines, hc, ih hcs]

theorem lines_unlines (ls : List (List Char)) (h : ∀ l ∈ ls, '\n' ∉ l) :
    lines (unlines ls) = ls := by
  induction ls with
  | nil => rfl
  | cons l ls ih =>
    rw [unlines, lines_append_newline l _ (h l (by simp)), ih (fun x hx => h x (by simp [hx]))]

theorem newline_not_mem_upperLine (n j : Int) : '\n' ∉ upperLine n j := by
  simp [upperLine, List.mem_replicate]

theorem newline_not_mem_lowerLine (m j : Int) : '\n' ∉ lowerLine m j := by
  simp [lowerLine, List.mem_replicate]

/-- The lines of the output: the upper rows, then the lower rows. -/
theorem lines_render (n : Int) : lines (render n) = upperLines n ++ lowerLines n := by
  rw [render_eq]
  apply lines_unlines
  intro l hl
  rcases List.mem_append.mp hl with h | h
  · obtain ⟨i, _, rfl⟩ := List.mem_map.mp h
    exact newline_not_mem_upperLine _ _
  · obtain ⟨i, _, rfl⟩ := List.mem_map.mp h
    exact newline_not_mem_lowerLine _ _

/-- For `n ≥ -1` truncating and flooring division agree on `(n + 1) / 2`. -/
theorem mid_eq_ediv (n : Int) (h : 0 ≤ n + 1) : mid n = (n + 1) / 2 :=
  Int.tdiv_eq_ediv h (by decide)

theorem mid_nonpos (n : Int) (h : n ≤ 0) : mid n ≤ 0 := by
  by_cases h0 : 0 ≤ n + 1
  · rw [mid_eq_ediv n h0]; omega
  · have e : n + 1 = -(-(n + 1)) := by ring
    have h1 : 0 ≤ Int.tdiv (-(n + 1)) 2 := Int.tdiv_nonneg (by omega) (by decide)
    unfold mid
    rw [e, Int.neg_tdiv]
    omega

theorem one_le_of_one_le_mid (n : Int) (h : 1 ≤ mid n) : 1 ≤ n := by
  by_contra hn
  have := mid_nonpos n (by omega)
  omega

theorem length_upperLines (n : Int) : (upperLines n).length = (mid n).toNat := by
  simp [upperLines]

theorem length_lowerLines (n : Int) : (lowerLines n).length = (mid n - 1).toNat := by
  simp [lowerLines]

/-- Every line of the output is a row of the upper or of the lower triangle. -/
theorem mem_lines_render (n : Int) (l : List Char) (h : l ∈ lines (render n)) :
    (∃ j : Int, 1 ≤ j ∧ j ≤ mid n ∧ l = upperLine n j) ∨
    (∃ j : Int, 1 ≤ j ∧ j ≤ mid n - 1 ∧ l = lowerLine (mid n) j) := by
  rw [lines_render] at h
  rcases List.mem_append.mp h with h | h
  · obtain ⟨i, hi, rfl⟩ := List.mem_map.mp h
    have := List.mem_range.mp hi
    exact Or.inl ⟨1 + (i : Int), by omega, by omega, rfl⟩
  · obtain ⟨i, hi, rfl⟩ := List.mem_map.mp h
    have := List.mem_range.mp hi
    exact Or.inr ⟨1 + (i : Int), by omega, by omega, rfl⟩

/-- A row `a` asterisks, `s` spaces, `a` asterisks reads the same backwards. -/
theorem reverse_row (a s : Nat) :
    (List.replicate a '*' ++ List.replicate s ' ' ++ List.replicate a '*').reverse
      = List.replicate a '*' ++ List.replicate s ' ' ++ List.replicate a '*' := by
  simp [List.reverse_append, List.reverse_replicate, List.append_assoc]

theorem count_newline_unlines (ls : List (List Char)) (h : ∀ l ∈ ls, '\n' ∉ l) :
    (unlines ls).count '\n' = ls.length := by
  induction ls with
  | nil => rfl
  | cons l ls ih =>
    have hl : l.count '\n' = 0 := List.count_eq_zero.mpr (h l (by simp))
    simp [unlines, List.count_append, hl, ih (fun x hx => h x (by simp [hx]))]

/-- The number of terminators written is the number of lines of the output. -/
theorem count_newline_render (n : Int) :
    (render n).count '\n' = (lines (render n)).length := by
  rw [lines_render, render_eq]
  apply count_newline_unlines
  intro l hl
  rcases List.mem_append.mp hl with h | h
  · obtain ⟨i, _, rfl⟩ := List.mem_map.mp h
    exact newline_not_mem_upperLine _ _
  · obtain ⟨i, _, rfl⟩ := List.mem_map.mp h
    exact newline_not_mem_lowerLine _ _

/-- C6 at the even size `n = 4`: the output has the three lines `*   *`, `** **`
and `*  *`, and the first line differs from the last one. -/
theorem C6_asymmetric_at_four :
    lines (render 4)
      = [['*', ' ', ' ', ' ', '*'], ['*', '*', ' ', '*', '*'], ['*', ' ', ' ', '*']] ∧
    (lines (render 4))[0]? ≠ (lines (render 4))[(lines (render 4)).length - 1]? := by
  have h : lines (render 4)
      = [['*', ' ', ' ', ' ', '*'], ['*', '*', ' ', '*', '*'], ['*', ' ', ' ', '*']] := by
    rw [lines_render]; decide
  refine ⟨h, ?_⟩
  rw [h]
  decide

/-- C7: every line of the output, for every `n`, equals its own reversal: it is
`a` asterisks, `s` spaces, `a` asterisks for some `a` and `s`, so its leading and
trailing runs of asterisks have the same length. -/
theorem C7_rows_mirror_symmetric (n : Int) (l : List Char) (h : l ∈ lines (render n)) :
    l.reverse = l ∧
    (∃ a s : Nat, l = List.replicate a '*' ++ List.replicate s ' ' ++ List.replicate a '*') ∧
    (l.takeWhile (fun c => c == '*')).length
      = (l.reverse.takeWhile (fun c => c == '*')).length := by
  have key : ∃ a s : Nat,
      l = List.replicate a '*' ++ List.replicate s ' ' ++ List.replicate a '*' := by
    rcases mem_lines_render n l h with ⟨j, _, _, rfl⟩ | ⟨j, _, _, rfl⟩
    · exact ⟨j.toNat, ((n + 1) - 2 * j).toNat, rfl⟩
    · exact ⟨(mid n - j).toNat, (2 * j).toNat, rfl⟩
  obtain ⟨a, s, rfl⟩ := key
  exact ⟨reverse_row a s, ⟨a, s, rfl⟩, by rw [reverse_row]⟩

/-- Witness of C7 at `n = 4`, on its last line `*  *`. -/
theorem C7_rows_mirror_symmetric_witness :
    ['*', ' ', ' ', '*'] ∈ lines (render 4) ∧
    (['*', ' ', ' ', '*'] : List Char).reverse = ['*', ' ', ' ', '*'] :=
  have hmem : ['*', ' ', ' ', '*'] ∈ lines (render 4) := by
    rw [lines_render]; decide
  ⟨hmem, (C7_rows_mirror_symmetric 4 _ hmem).1⟩

/-- C8: for `n ≤ 0` neither outer loop runs its body (whatever the body), nothing
is written to the stream, and `main` returns 0. -/
theorem C8_nonpositive_no_output (n : Int) (h : n ≤ 0) :
    (∀ (body : Int → Stream → Stream) (s : Stream), forUp 1 (mid n) body s = s) ∧
    (∀ (body : Int → Stream → Stream) (s : Stream), forUp 1 (mid n - 1) body s = s) ∧
    render n = [] ∧ (render n).length = 0 ∧ lines (render n) = [] ∧ main n = ([], 0) := by
  have hm := mid_nonpos n h
  have hr : render n = [] := by
    unfold render
    simp only
    rw [forUp_of_lt 1 (mid n) _ _ (by omega), forUp_of_lt 1 (mid n - 1) _ _ (by omega)]
  refine ⟨fun body s => forUp_of_lt 1 (mid n) body s (by omega),
    fun body s => forUp_of_lt 1 (mid n - 1) body s (by omega), hr, by rw [hr]; rfl,
    by rw [hr]; rfl, ?_⟩
  simp only [main, hr]

/-- Witness of C8 at `n = -2` (where `mid = 0` by truncation). -/
theorem C8_nonpositive_no_output_witness :
    (-2 : Int) ≤ 0 ∧ mid (-2) = 0 ∧ render (-2) = [] ∧ main (-2) = ([], 0) :=
  ⟨by decide, by decide, (C8_nonpositive_no_output (-2) (by decide)).2.2.1,
   (C8_nonpositive_no_output (-2) (by decide)).2.2.2.2.2⟩

/-- C9: for `n = 1`, `mid = 1`, the stream is exactly `**` and one terminator, one
line (one asterisk, no space, one asterisk), the second outer loop has no pass,
and `main` returns 0. -/
theorem C9_size_one :
    mid 1 = 1 ∧ render 1 = ['*', '*', '\n'] ∧ lines (render 1) = [['*', '*']] ∧
    (∀ (body : Int → Stream → Stream) (s : Stream), forUp 1 (mid 1 - 1) body s = s) ∧
    main 1 = (['*', '*', '\n'], 0) := by
  have hr : render 1 = ['*', '*', '\n'] := by rw [render_eq]; decide
  refine ⟨by decide, hr, by rw [lines_render]; decide,
    fun body s => forUp_of_lt 1 (mid 1 - 1) body s (by decide), ?_⟩
  simp only [main, hr]

/-- C10 (as stated) fails: for `n = 5` the lines of the output are not `*   *`,
`** **`, nine asterisks, `** **`, `*   *`. -/
theorem C10_counterexample :
    lines (render 5) ≠
      [['*', ' ', ' ', ' ', '*'], ['*', '*', ' ', '*', '*'],
       ['*', '*', '*', '*', '*', '*', '*', '*', '*'],
       ['*', '*', ' ', '*', '*'], ['*', ' ', ' ', ' ', '*']] := by
  rw [lines_render]
  decide

/-- C10 (amended): for `n = 5` the output is the five lines `*    *` (1 asterisk,
4 spaces, 1 asterisk), `**  **` (2, 2, 2), `******` (6 asterisks), `**  **`,
`*    *`, in this order, each followed by its terminator. -/
theorem C10_size_five :
    lines (render 5) =
      [['*', ' ', ' ', ' ', ' ', '*'], ['*', '*', ' ', ' ', '*', '*'],
       ['*', '*', '*', '*', '*', '*'],
       ['*', '*', ' ', ' ', '*', '*'], ['*', ' ', ' ', ' ', ' ', '*']] ∧
    render 5 =
      ['*', ' ', ' ', ' ', ' ', '*', '\n', '*', '*', ' ', ' ', '*', '*', '\n',
       '*', '*', '*', '*', '*', '*', '\n',
       '*', '*', ' ', ' ', '*', '*', '\n', '*', ' ', ' ', ' ', ' ', '*', '\n'] := by
  refine ⟨by rw [lines_render]; decide, by rw [render_eq]; decide⟩

theorem star_or_space_upperLine (n j : Int) : ∀ c ∈ upperLine n j, c = '*' ∨ c = ' ' := by
  intro c hc
  simp only [upperLine, List.mem_append, List.mem_replicate] at hc
  rcases hc with (h | h) | h
  · exact Or.inl h.2
  · exact Or.inr h.2
  · exact Or.inl h.2

theorem star_or_space_lowerLine (m j : Int) : ∀ c ∈ lowerLine m j, c = '*' ∨ c = ' ' := by
  intro c hc
  simp only [lowerLine, List.mem_append, List.mem_replicate] at hc
  rcases hc with (h | h) | h
  · exact Or.inl h.2
  · exact Or.inr h.2
  · exact Or.inl h.2

theorem getLast?_unlines (ls : List (List Char)) (h : ls ≠ []) :
    (unlines ls).getLast? = some '\n' := by
  induction ls with
  | nil => exact absurd rfl h
  | cons l ls ih =>
    by_cases hls : ls = []
    · subst hls
      simp [unlines]
    · have hne : unlines ls ≠ [] := by
        cases ls with
        | nil => exact absurd rfl hls
        | cons a as => simp [unlines]
      rw [unlines, List.getLast?_append_of_ne_nil _ (by simp)]
      obtain ⟨b, t, hbt⟩ := List.exists_cons_of_ne_nil hne
      rw [hbt, List.getLast?_cons_cons, ← hbt]
      exact ih hls

/-- C11: for every `n` the stream is a concatenation of terminated lines (each
line followed by the newline character, nothing after the last terminator) and
every character of every line is an asterisk or a space. -/
theorem C11_terminated_star_space_lines (n : Int) :
    (∃ ls : List (List Char), render n = unlines ls ∧ lines (render n) = ls ∧
      ∀ l ∈ ls, ∀ c ∈ l, c = '*' ∨ c = ' ') ∧
    (render n = [] ∨ (render n).getLast? = some '\n') ∧
    (∀ c ∈ render n, c = '*' ∨ c = ' ' ∨ c = '\n') := by
  have hchars : ∀ l ∈ upperLines n ++ lowerLines n, ∀ c ∈ l, c = '*' ∨ c = ' ' := by
    intro l hl
    rcases List.mem_append.mp hl with h | h
    · obtain ⟨i, _, rfl⟩ := List.mem_map.mp h
      exact star_or_space_upperLine _ _
    · obtain ⟨i, _, rfl⟩ := List.mem_map.mp h
      exact star_or_space_lowerLine _ _
  refine ⟨⟨upperLines n ++ lowerLines n, render_eq n, lines_render n, hchars⟩, ?_, ?_⟩
  · by_cases h : upperLines n ++ lowerLines n = []
    · left; rw [render_eq, h]; rfl
    · right; rw [render_eq]; exact getLast?_unlines _ h
  · rw [render_eq]
    generalize upperLines n ++ lowerLines n = ls at hchars
    induction ls with
    | nil => intro c hc; simp [unlines] at hc
    | cons l ls ih =>
      intro c hc
      simp only [unlines, List.mem_append, List.mem_cons] at hc
      rcases hc with h | h | h
      · rcases hchars l (by simp) c h with h' | h'
        · exact Or.inl h'
        · exact Or.inr (Or.inl h')
      · exact Or.inr (Or.inr h)
      · exact ih (fun x hx => hchars x (by simp [hx])) c h

/-- C12 (as stated) fails: when no integer can be parsed and `n` holds 0 after the
failed extraction, the exit status is 0, not a non-zero code. -/
theorem C12_counterexample :
    program (Extraction.failure 0) = ([], 0) ∧
    ¬ ((program (Extraction.failure 0)).2 ≠ 0) := by
  have hr : render 0 = [] := by rw [render_eq]; decide
  have h : program (Extraction.failure 0) = ([], 0) := by
    simp only [program, Extraction.stored, main, hr]
  exact ⟨h, by rw [h]; decide⟩

/-- C12 (amended): when no integer can be parsed, the program reports no error: it
runs the loops on the value `left` that `n` holds after the failed extraction and
returns 0; when that value is 0 nothing is written. -/
theorem C12_failed_extraction (left : Int) :
    program (Extraction.failure left) = (render left, 0) ∧
    (program (Extraction.failure left)).2 = 0 ∧
    (left = 0 → (program (Extraction.failure left)).1 = [] ∧
      lines (program (Extraction.failure left)).1 = []) := by
  refine ⟨rfl, rfl, ?_⟩
  intro h
  subst h
  have hr : render 0 = [] := by rw [render_eq]; decide
  have hp : (program (Extraction.failure 0)).1 = [] := by
    simp only [program, Extraction.stored, main, hr]
  exact ⟨hp, by rw [hp]; rfl⟩

/-- Witness of C12 (amended) at `left = 0`. -/
theorem C12_failed_extraction_witness :
    (0 : Int) = 0 ∧ (program (Extraction.failure 0)).1 = [] ∧
      (program (Extraction.failure 0)).2 = 0 :=
  ⟨rfl, ((C12_failed_extraction 0).2.2 rfl).1, (C12_failed_extraction 0).2.1⟩

/-- C13: for every value `n` (positive, zero or negative) `main` runs to its end
and returns 0, and so does the whole program whatever line 6 stored in `n`. -/
theorem C13_exit_status_success :
    (∀ n : Int, (main n).2 = 0 ∧ main n = (render n, 0)) ∧
    (∀ e : Extraction, (program e).2 = 0) ∧
    ¬ ∃ e : Extraction, (program e).2 ≠ 0 := by
  refine ⟨fun n => ⟨rfl, rfl⟩, fun e => rfl, ?_⟩
  rintro ⟨e, he⟩
  exact he rfl

/-- The text written by a run does not depend on what the stream held before. -/
theorem renderFrom_eq (n : Int) (out0 : Stream) :
    renderFrom n out0 = out0 ++ render n := by
  rw [render_eq]
  unfold renderFrom
  simp only
  rw [forUp_foldl _ 1 (mid n) _ _ rfl, forUp_foldl _ 1 (mid n - 1) _ _ rfl]
  simp only [upperRow_eq, lowerRow_eq]
  rw [foldl_rows (fun i => upperLine n (1 + (i : Int))),
    foldl_rows (fun i => lowerLine (mid n) (1 + (i : Int)))]
  have h1 : mid n + 1 - 1 = mid n := by ring
  have h2 : mid n - 1 + 1 - 1 = mid n - 1 := by ring
  rw [h1, h2, unlines_append]
  simp [upperLines, lowerLines]

/-- C14: rendering is deterministic. A run on `n` appends the same text `render n`
to the stream whatever the stream held before, so two runs with the same `n`
write identical text, and a second run after a first writes that text again. -/
theorem C14_render_deterministic (n : Int) :
    render n = renderFrom n [] ∧
    (∀ o₁ o₂ : Stream,
      (renderFrom n o₁).drop o₁.length = (renderFrom n o₂).drop o₂.length) ∧
    (∀ o : Stream, renderFrom n o = o ++ render n) ∧
    renderFrom n (renderFrom n []) = render n ++ render n ∧
    (∀ e₁ e₂ : Extraction, e₁.stored = e₂.stored → program e₁ = program e₂) := by
  refine ⟨rfl, ?_, renderFrom_eq n, ?_, ?_⟩
  · intro o₁ o₂
    rw [renderFrom_eq, renderFrom_eq, List.drop_left, List.drop_left]
  · rw [renderFrom_eq, renderFrom_eq, List.nil_append]
  · intro e₁ e₂ h
    simp only [program, h]

/-- Witness of C14 at `n = 1`: two runs write `**` and a terminator twice. -/
theorem C14_render_deterministic_witness :
    renderFrom 1 (renderFrom 1 []) = ['*', '*', '\n', '*', '*', '\n'] :=
  (C14_render_deterministic 1).2.2.2.1.trans (by rw [render_eq]; decide)

/-- C16: no repeat count is negative on a row the program writes. For an upper row
`1 ≤ j ≤ mid` the bound `(n + 1) - 2 * j` is `≥ 0` (clamping changes nothing) and
the row is `j` asterisks, `(n + 1) - 2 * j` spaces, `j` asterisks; for a lower row
`1 ≤ j ≤ mid - 1`, `mid - j ≥ 1`, the space count `n - ((n + 1) - 2 * j) + 1` is
`≥ 0`, and the row is written with exactly these counts. -/
theorem C16_counts_nonnegative (n j : Int) :
    (1 ≤ j → j ≤ mid n →
      0 ≤ (n + 1) - 2 * j ∧ max 0 ((n + 1) - 2 * j) = (n + 1) - 2 * j ∧
      ∀ out : Stream, ∃ a s : Nat, (a : Int) = j ∧ (s : Int) = (n + 1) - 2 * j ∧
        upperRow n j out
          = out ++ (List.replicate a '*' ++ List.replicate s ' ' ++ List.replicate a '*'
              ++ ['\n'])) ∧
    (1 ≤ j → j ≤ mid n - 1 →
      1 ≤ mid n - j ∧ 0 ≤ n - ((n + 1) - 2 * j) + 1 ∧
      ∀ out : Stream, ∃ a s : Nat, (a : Int) = mid n - j ∧
        (s : Int) = n - ((n + 1) - 2 * j) + 1 ∧
        lowerRow n (mid n) j out
          = out ++ (List.replicate a '*' ++ List.replicate s ' ' ++ List.replicate a '*'
              ++ ['\n'])) := by
  refine ⟨?_, ?_⟩
  · intro h1 h2
    have hn := one_le_of_one_le_mid n (by omega)
    have hm := mid_eq_ediv n (by omega)
    have h0 : 0 ≤ (n + 1) - 2 * j := by omega
    refine ⟨h0, max_eq_right h0, fun out => ⟨j.toNat, ((n + 1) - 2 * j).toNat, by omega,
      by omega, ?_⟩⟩
    rw [upperRow_eq, upperLine]
  · intro h1 h2
    refine ⟨by omega, by omega, fun out => ⟨(mid n - j).toNat, (2 * j).toNat, by omega,
      by omega, ?_⟩⟩
    rw [lowerRow_eq, lowerLine]

/-- Witness of C16 at `n = 5`, `j = 2` (an upper row and a lower row). -/
theorem C16_counts_nonnegative_witness :
    (1 : Int) ≤ 2 ∧ (2 : Int) ≤ mid 5 ∧ (2 : Int) ≤ mid 5 - 1 ∧
    (0 : Int) ≤ (5 + 1) - 2 * 2 ∧ (1 : Int) ≤ mid 5 - 2 :=
  ⟨by decide, by decide, by decide,
   ((C16_counts_nonnegative 5 2).1 (by decide) (by decide)).1,
   ((C16_counts_nonnegative 5 2).2 (by decide) (by decide)).1⟩

theorem floor_half (x : Int) : ⌊((x : ℚ) / 2)⌋ = x / 2 := by
  have h := Rat.floor_intCast_div_natCast x 2
  simpa using h

/-- On a negative argument the division of line 7 rounds up, toward zero. -/
theorem mid_of_neg (n : Int) (h : n + 1 < 0) : mid n = -((-(n + 1)) / 2) := by
  have e : n + 1 = -(-(n + 1)) := by ring
  have h1 : Int.tdiv (-(n + 1)) 2 = (-(n + 1)) / 2 :=
    Int.tdiv_eq_ediv (by omega) (by decide)
  unfold mid
  rw [e, Int.neg_tdiv, h1]
  simp

/-- C19 (as stated) fails at `n = -2`: the program computes `(-1) / 2 = 0`, while
the floor of `-1/2` is `-1`. -/
theorem C19_counterexample :
    mid (-2) = 0 ∧ ⌊((((-2 : Int) + 1 : Int) : ℚ) / 2)⌋ = -1 ∧
    mid (-2) ≠ ⌊((((-2 : Int) + 1 : Int) : ℚ) / 2)⌋ := by
  have hf : ⌊((((-2 : Int) + 1 : Int) : ℚ) / 2)⌋ = -1 := by
    rw [floor_half]; decide
  refine ⟨by decide, hf, ?_⟩
  rw [hf]; decide

/-- A counted-up loop on machine integers agrees with the loop on unbounded
integers when the budget suffices and each increment is representable. -/
theorem forUpM_eq (ar : Arith) (body : Int → Stream → Stream)
    (bodyM : Int → Stream → Except Fault Stream) (hi : Int) :
    ∀ (fuel : Nat) (k : Int) (s : Stream), (hi + 1 - k).toNat < fuel →
      (∀ j : Int, k ≤ j → j ≤ hi → ar (j + 1) = .ok (j + 1)) →
      (∀ j : Int, k ≤ j → j ≤ hi → ∀ s : Stream, bodyM j s = .ok (body j s)) →
      forUpM ar fuel k (.ok hi) bodyM s = .ok (forUp k hi body s) := by
  intro fuel
  induction fuel with
  | zero => intro k s h; omega
  | succ fuel ih =>
    intro k s h har hbody
    by_cases hk : k ≤ hi
    · rw [forUp_step k hi body s hk]
      simp only [forUpM, hk, if_true, hbody k le_rfl hk s, har k le_rfl hk]
      exact ih (k + 1) (body k s) (by omega)
        (fun j h1 h2 => har j (by omega) h2) (fun j h1 h2 => hbody j (by omega) h2)
    · rw [forUp_of_lt k hi body s (by omega)]
      simp only [forUpM, hk, if_false]

/-- The same for a counted-down loop. -/
theorem forDownM_eq (ar : Arith) (body : Int → Stream → Stream)
    (bodyM : Int → Stream → Except Fault Stream) (lo : Int) :
    ∀ (fuel : Nat) (k : Int) (s : Stream), (k + 1 - lo).toNat < fuel →
      (∀ j : Int, lo ≤ j → j ≤ k → ar (j - 1) = .ok (j - 1)) →
      (∀ j : Int, lo ≤ j → j ≤ k → ∀ s : Stream, bodyM j s = .ok (body j s)) →
      forDownM ar fuel k (.ok lo) bodyM s = .ok (forDown k lo body s) := by
  intro fuel
  induction fuel with
  | zero => intro k s h; omega
  | succ fuel ih =>
    intro k s h har hbody
    by_cases hk : lo ≤ k
    · rw [forDown_step k lo body s hk]
      simp only [forDownM, ge_iff_le, hk, if_true, hbody k hk le_rfl s, har k hk le_rfl]
      exact ih (k - 1) (body k s) (by omega)
        (fun j h1 h2 => har j h1 (by omega)) (fun j h1 h2 => hbody j h1 (by omega))
    · rw [forDown_of_lt k lo body s (by omega)]
      simp only [forDownM, ge_iff_le, hk, if_false]

theorem mid_bounds_of_one_le (n j : Int) (h1 : 1 ≤ j) (h2 : j ≤ mid n) :
    1 ≤ n ∧ 2 * j ≤ n + 1 ∧ mid n ≤ n := by
  have hn := one_le_of_one_le_mid n (by omega)
  have hm := mid_eq_ediv n (by omega)
  omega

/-- One upper row on machine integers agrees with the row on unbounded integers
when every value between `min n (-1)` and `max (n + 1) 1` is representable. -/
theorem upperRowM_eq (ar : Arith) (n : Int) (fuel : Nat)
    (H : ∀ x : Int, (n ≤ x ∨ -1 ≤ x) → (x ≤ n + 1 ∨ x ≤ 1) → ar x = .ok x)
    (hf : (n + 2).toNat < fuel) (j : Int) (h1 : 1 ≤ j) (h2 : j ≤ mid n) (out : Stream) :
    upperRowM ar fuel n j out = .ok (upperRow n j out) := by
  obtain ⟨hn, hj, hm⟩ := mid_bounds_of_one_le n j h1 h2
  have hstar : ∀ o : Stream, forUpM ar fuel 1 (.ok j) (fun _ o => .ok (put '*' o)) o
      = .ok (forUp 1 j (fun _ o => put '*' o) o) := fun o =>
    forUpM_eq ar (fun _ o => put '*' o) _ j fuel 1 o (by omega)
      (fun i _ _ => H (i + 1) (by omega) (by omega)) (fun _ _ _ _ => rfl)
  have hsb : spaceBound ar n j = .ok ((n + 1) - (2 * j)) := by
    simp only [spaceBound, H (n + 1) (by omega) (by omega), H (2 * j) (by omega) (by omega),
      H ((n + 1) - (2 * j)) (by omega) (by omega)]
  have hspace : ∀ o : Stream,
      forUpM ar fuel 1 (.ok ((n + 1) - (2 * j))) (fun _ o => .ok (put ' ' o)) o
        = .ok (forUp 1 ((n + 1) - (2 * j)) (fun _ o => put ' ' o) o) := fun o =>
    forUpM_eq ar (fun _ o => put ' ' o) _ _ fuel 1 o (by omega)
      (fun i _ _ => H (i + 1) (by omega) (by omega)) (fun _ _ _ _ => rfl)
  simp only [upperRowM, upperRow, hstar, hsb, hspace]

/-- One lower row on machine integers agrees with the row on unbounded integers. -/
theorem lowerRowM_eq (ar : Arith) (n : Int) (fuel : Nat)
    (H : ∀ x : Int, (n ≤ x ∨ -1 ≤ x) → (x ≤ n + 1 ∨ x ≤ 1) → ar x = .ok x)
    (hf : (n + 2).toNat < fuel) (j : Int) (h1 : 1 ≤ j) (h2 : j ≤ mid n - 1)
    (out : Stream) :
    lowerRowM ar fuel n (mid n) j out = .ok (lowerRow n (mid n) j out) := by
  obtain ⟨hn, hj, hm⟩ := mid_bounds_of_one_le n (j + 1) (by omega) (by omega)
  have hm1 : ar (mid n - 1) = .ok (mid n - 1) := H _ (by omega) (by omega)
  have hstarD : ∀ o : Stream,
      forDownM ar fuel (mid n - 1) (.ok j) (fun _ o => .ok (put '*' o)) o
        = .ok (forDown (mid n - 1) j (fun _ o => put '*' o) o) := fun o =>
    forDownM_eq ar (fun _ o => put '*' o) _ j fuel (mid n - 1) o (by omega)
      (fun i _ _ => H (i - 1) (by omega) (by omega)) (fun _ _ _ _ => rfl)
  have hsb : spaceBound ar n j = .ok ((n + 1) - (2 * j)) := by
    simp only [spaceBound, H (n + 1) (by omega) (by omega), H (2 * j) (by omega) (by omega),
      H ((n + 1) - (2 * j)) (by omega) (by omega)]
  have hspace : ∀ o : Stream,
      forDownM ar fuel n (.ok ((n + 1) - (2 * j))) (fun _ o => .ok (put ' ' o)) o
        = .ok (forDown n ((n + 1) - (2 * j)) (fun _ o => put ' ' o) o) := fun o =>
    forDownM_eq ar (fun _ o => put ' ' o) _ _ fuel n o (by omega)
      (fun i _ _ => H (i - 1) (by omega) (by omega)) (fun _ _ _ _ => rfl)
  have hstarU : ∀ o : Stream,
      forUpM ar fuel j (.ok (mid n - 1)) (fun _ o => .ok (put '*' o)) o
        = .ok (forUp j (mid n - 1) (fun _ o => put '*' o) o) := fun o =>
    forUpM_eq ar (fun _ o => put '*' o) _ _ fuel j o (by omega)
      (fun i _ _ => H (i + 1) (by omega) (by omega)) (fun _ _ _ _ => rfl)
  simp only [lowerRowM, lowerRow, hm1, hstarD, hsb, hspace, hstarU]

/-- The run on machine integers agrees with the run on unbounded integers as soon
as every value between `min n (-1)` and `max (n + 1) 1` is representable and the
budget exceeds `n + 2`. -/
theorem renderM_eq (ar : Arith) (n : Int) (fuel : Nat)
    (H : ∀ x : Int, (n ≤ x ∨ -1 ≤ x) → (x ≤ n + 1 ∨ x ≤ 1) → ar x = .ok x)
    (hf : (n + 2).toNat < fuel) : renderM ar fuel n = .ok (render n) := by
  have hmid : Int.tdiv (n + 1) 2 = mid n := rfl
  have hrange : (n ≤ 0 ∧ mid n ≤ 0 ∧ (n ≤ mid n - 1 ∨ -1 ≤ mid n - 1 ∧ -1 ≤ n)) ∨
      (1 ≤ n ∧ 1 ≤ mid n ∧ mid n ≤ n) := by
    by_cases h : 0 ≤ n + 1
    · have := mid_eq_ediv n h
      omega
    · have := mid_of_neg n (by omega)
      omega
  have h1 : ar (n + 1) = .ok (n + 1) := H _ (by omega) (by omega)
  have h2 : ar (mid n) = .ok (mid n) := H _ (by omega) (by omega)
  have h3 : ar (mid n - 1) = .ok (mid n - 1) := H _ (by omega) (by omega)
  have hup : ∀ o : Stream,
      forUpM ar fuel 1 (.ok (mid n)) (fun j o => upperRowM ar fuel n j o) o
        = .ok (forUp 1 (mid n) (fun j o => upperRow n j o) o) := fun o =>
    forUpM_eq ar (fun j o => upperRow n j o) _ (mid n) fuel 1 o (by omega)
      (fun i _ _ => H (i + 1) (by omega) (by omega))
      (fun i hi1 hi2 s => upperRowM_eq ar n fuel H hf i hi1 hi2 s)
  have hlow : ∀ o : Stream,
      forUpM ar fuel 1 (.ok (mid n - 1)) (fun j o => lowerRowM ar fuel n (mid n) j o) o
        = .ok (forUp 1 (mid n - 1) (fun j o => lowerRow n (mid n) j o) o) := fun o =>
    forUpM_eq ar (fun j o => lowerRow n (mid n) j o) _ (mid n - 1) fuel 1 o (by omega)
      (fun i _ _ => H (i + 1) (by omega) (by omega))
      (fun i hi1 hi2 s => lowerRowM_eq ar n fuel H hf i hi1 hi2 s)
  simp only [renderM, render, h1, hmid, h2, h3, hup, hlow]

/-- With unbounded integers the monadic run is the function `render`. -/
theorem renderM_exact (n : Int) (fuel : Nat) (hf : (n + 2).toNat < fuel) :
    renderM exact fuel n = .ok (render n) :=
  renderM_eq exact n fuel (fun _ _ _ => rfl) hf

theorem wrap_of_inRange (x : Int) (h1 : -2147483648 ≤ x) (h2 : x ≤ 2147483647) :
    wrap x = x := by
  unfold wrap
  omega

theorem checked_of_inRange (x : Int) (h1 : -2147483648 ≤ x) (h2 : x ≤ 2147483647) :
    checked x = .ok x := by
  simp only [checked, h1, h2, and_self, if_true]

theorem wrapped_of_inRange (x : Int) (h1 : -2147483648 ≤ x) (h2 : x ≤ 2147483647) :
    wrapped x = .ok x := by
  simp only [wrapped, wrap_of_inRange x h1 h2]

/-- C20: for a 32-bit `n` below `2^31 - 1`, the complete run with overflow
detection reports no overflow (every `int` expression and every loop counter
stays in the 32-bit range), and the run with wrap-around arithmetic writes the
same stream as the run on unbounded integers. At `n = 2^31 - 1` the expression
`n + 1` overflows; the wrap-around run then writes nothing although the run on
unbounded integers writes lines. Among 32-bit inputs this is the only one whose
complete run overflows. -/
theorem C20_int32_arithmetic (n : Int) (h1 : -2147483648 ≤ n) (h2 : n ≤ 2147483647) :
    (n < 2147483647 → ∀ fuel : Nat, (n + 2).toNat < fuel →
      renderM checked fuel n = .ok (render n) ∧
      renderM wrapped fuel n = .ok (render n) ∧
      renderM exact fuel n = .ok (render n)) ∧
    (n = 2147483647 →
      checked (n + 1) = .error .overflow ∧
      (∀ fuel : Nat, renderM checked fuel n = .error .overflow) ∧
      (∀ fuel : Nat, 0 < fuel → renderM wrapped fuel n = .ok []) ∧
      render n ≠ []) ∧
    ((∀ fuel : Nat, (n + 2).toNat < fuel → renderM checked fuel n = .error .overflow)
      ↔ n = 2147483647) := by
  have hlow : n < 2147483647 → ∀ fuel : Nat, (n + 2).toNat < fuel →
      renderM checked fuel n = .ok (render n) ∧
      renderM wrapped fuel n = .ok (render n) ∧
      renderM exact fuel n = .ok (render n) := by
    intro hlt fuel hf
    exact ⟨renderM_eq checked n fuel
        (fun x hx1 hx2 => checked_of_inRange x (by omega) (by omega)) hf,
      renderM_eq wrapped n fuel
        (fun x hx1 hx2 => wrapped_of_inRange x (by omega) (by omega)) hf,
      renderM_exact n fuel hf⟩
  have hmax : ∀ fuel : Nat, renderM checked fuel 2147483647 = .error .overflow := by
    intro fuel
    have hc : checked (2147483647 + 1) = .error .overflow := by simp [checked]
    simp only [renderM, hc]
  refine ⟨hlow, ?_, ?_⟩
  · intro hn
    subst hn
    refine ⟨by simp [checked], hmax, ?_, ?_⟩
    · intro fuel hfuel
      obtain ⟨f, rfl⟩ : ∃ f, fuel = f + 1 := ⟨fuel - 1, by omega⟩
      have w1 : wrap (2147483647 + 1) = -2147483648 := by decide
      have ht : Int.tdiv (-2147483648) 2 = -1073741824 := by decide
      have w2 : wrap (-1073741824) = -1073741824 := by decide
      have w3 : wrap (-1073741824 - 1) = -1073741825 := by decide
      have e1 : wrapped (2147483647 + 1) = .ok (-2147483648) := by rw [wrapped, w1]
      have e2 : wrapped (Int.tdiv (-2147483648) 2) = .ok (-1073741824) := by
        rw [wrapped, ht, w2]
      have e3 : wrapped (-1073741824 - 1) = .ok (-1073741825) := by rw [wrapped, w3]
      have c1 : ¬ ((1 : Int) ≤ -1073741824) := by decide
      have c2 : ¬ ((1 : Int) ≤ -1073741825) := by decide
      simp only [renderM, e1, e2, e3, forUpM, c1, c2, if_false]
    · intro hr
      have hl := lines_render 2147483647
      rw [hr] at hl
      have hlen := congrArg List.length hl
      rw [List.length_append, length_upperLines] at hlen
      have hm : mid 2147483647 = 1073741824 := by decide
      have h0 : (lines ([] : Stream)).length = 0 := rfl
      rw [hm, h0] at hlen
      omega
  · constructor
    · intro hall
      by_contra hne
      have hok := (hlow (by omega) ((n + 2).toNat + 1) (by omega)).1
      rw [hall ((n + 2).toNat + 1) (by omega)] at hok
      exact absurd hok (by simp)
    · intro hn fuel _
      subst hn
      exact hmax fuel

/-- Witness of C20 at `n = 5` with a budget of 8 tests per loop. -/
theorem C20_int32_arithmetic_witness :
    (-2147483648 : Int) ≤ 5 ∧ (5 : Int) ≤ 2147483647 ∧ (5 : Int) < 2147483647 ∧
    renderM checked 8 5 = .ok (render 5) ∧ renderM wrapped 8 5 = .ok (render 5) :=
  ⟨by decide, by decide, by decide,
   ((C20_int32_arithmetic 5 (by decide) (by decide)).1 (by decide) 8 (by decide)).1,
   ((C20_int32_arithmetic 5 (by decide) (by decide)).1 (by decide) 8 (by decide)).2.1⟩

/-- The run `renderM` starts with the computation `midM` of line 7. -/
theorem renderM_of_midM (ar : Arith) (fuel : Nat) (n m : Int) (h : midM ar n = .ok m) :
    renderM ar fuel n =
      match forUpM ar fuel 1 (.ok m) (fun j o => upperRowM ar fuel n j o) [] with
      | .error e => .error e
      | .ok out =>
        forUpM ar fuel 1 (ar (m - 1)) (fun j o => lowerRowM ar fuel n m j o) out := by
  unfold midM at h
  unfold renderM
  cases h1 : ar (n + 1) with
  | error e => rw [h1] at h; cases h
  | ok a =>
    rw [h1] at h
    simp only at h ⊢
    rw [h]

/-- On a 32-bit input below `2^31 - 1` line 7 computes `mid n` without overflow. -/
theorem midM_eq (ar : Arith) (n : Int)
    (H : ∀ x : Int, -2147483648 ≤ x → x ≤ 2147483647 → ar x = .ok x)
    (h1 : -2147483648 ≤ n) (h2 : n < 2147483647) : midM ar n = .ok (mid n) := by
  have hmid : Int.tdiv (n + 1) 2 = mid n := rfl
  have hr : -2147483648 ≤ mid n ∧ mid n ≤ 2147483647 := by
    by_cases h : 0 ≤ n + 1
    · have := mid_eq_ediv n h
      omega
    · have := mid_of_neg n (by omega)
      omega
  simp only [midM, H (n + 1) (by omega) (by omega), hmid, H (mid n) hr.1 hr.2]

/-- At `n = 2^31 - 1` the wrap-around `n + 1` is `-2^31`, so line 7 yields
`-2^30`. -/
theorem midM_wrapped_max : midM wrapped 2147483647 = .ok (-1073741824) := by
  have w1 : wrap (2147483647 + 1) = -2147483648 := by decide
  have ht : Int.tdiv (-2147483648) 2 = -1073741824 := by decide
  have w2 : wrap (-1073741824) = -1073741824 := by decide
  have e1 : wrapped (2147483647 + 1) = .ok (-2147483648) := by rw [wrapped, w1]
  have e2 : wrapped (Int.tdiv (-2147483648) 2) = .ok (-1073741824) := by
    rw [wrapped, ht, w2]
  simp only [midM, e1, e2]

/-- At `n = 2^31 - 1` the wrap-around run completes without writing anything. -/
theorem renderM_wrapped_max (fuel : Nat) (hfuel : 0 < fuel) :
    renderM wrapped fuel 2147483647 = .ok [] := by
  obtain ⟨f, rfl⟩ : ∃ f, fuel = f + 1 := ⟨fuel - 1, by omega⟩
  have w3 : wrap (-1073741824 - 1) = -1073741825 := by decide
  have e3 : wrapped (-1073741824 - 1) = .ok (-1073741825) := by rw [wrapped, w3]
  have c1 : ¬ ((1 : Int) ≤ -1073741824) := by decide
  have c2 : ¬ ((1 : Int) ≤ -1073741825) := by decide
  rw [renderM_of_midM wrapped (f + 1) 2147483647 _ midM_wrapped_max]
  simp only [e3, forUpM, c1, c2, if_false]

/-- C4 (as stated) fails at `n = 2147483647 = 2^31 - 1`, an odd `n ≥ 1`: the `int`
expression `n + 1` wraps to `-2^31`, line 7 yields `mid = -2^30`, neither loop
runs and the program writes no line at all, not `n` lines and not
`2 * mid - 1` lines. -/
theorem C4_counterexample :
    (1 : Int) ≤ 2147483647 ∧ (2147483647 : Int) % 2 = 1 ∧
    midM wrapped 2147483647 = .ok (-1073741824) ∧
    renderM wrapped 1 2147483647 = .ok [] ∧
    renderM wrapped 2147483650 2147483647 = .ok [] ∧
    ((lines ([] : Stream)).length : Int) ≠ 2147483647 ∧
    ((lines ([] : Stream)).length : Int) ≠ 2 * ((2147483647 + 1) / 2) - 1 ∧
    ((lines ([] : Stream)).length : Int) ≠ 2 * (-1073741824) - 1 := by
  have h0 : (lines ([] : Stream)).length = 0 := rfl
  refine ⟨by decide, by decide, midM_wrapped_max, renderM_wrapped_max 1 (by decide),
    renderM_wrapped_max 2147483650 (by decide), ?_, ?_, ?_⟩ <;>
  · rw [h0]; decide

/-- C4 (amended): for `1 ≤ n < 2^31 - 1` the 32-bit program runs without overflow,
line 7 yields `mid = (n + 1) / 2` by integer division, and the output has
`2 * mid - 1` lines: `mid` upper lines followed by `mid - 1` lower lines, one
terminator written per line; that is `n` lines for odd `n` and `n - 1` lines for
even `n`. -/
theorem C4_line_count (n : Int) (hn : 1 ≤ n) (hmax : n < 2147483647) :
    (∀ fuel : Nat, (n + 2).toNat < fuel →
      renderM wrapped fuel n = .ok (render n) ∧ renderM checked fuel n = .ok (render n)) ∧
    midM wrapped n = .ok (mid n) ∧
    mid n = (n + 1) / 2 ∧
    ((lines (render n)).length : Int) = 2 * mid n - 1 ∧
    (lines (render n)).length = (mid n).toNat + (mid n - 1).toNat ∧
    ((mid n).toNat : Int) = mid n ∧ ((mid n - 1).toNat : Int) = mid n - 1 ∧
    (render n).count '\n' = (lines (render n)).length ∧
    (n % 2 = 1 → ((lines (render n)).length : Int) = n) ∧
    (n % 2 = 0 → ((lines (render n)).length : Int) = n - 1) := by
  have hm := mid_eq_ediv n (by omega)
  have hl : (lines (render n)).length = (mid n).toNat + (mid n - 1).toNat := by
    rw [lines_render, List.length_append, length_upperLines, length_lowerLines]
  refine ⟨fun fuel hf => ⟨renderM_eq wrapped n fuel
      (fun x _ _ => wrapped_of_inRange x (by omega) (by omega)) hf,
    renderM_eq checked n fuel
      (fun x _ _ => checked_of_inRange x (by omega) (by omega)) hf⟩,
    midM_eq wrapped n wrapped_of_inRange (by omega) hmax,
    hm, by omega, hl, by omega, by omega, count_newline_render n, ?_, ?_⟩
  · intro h; omega
  · intro h; omega

/-- Witness of C4 (amended) at `n = 4` (even, three lines). -/
theorem C4_line_count_witness :
    (1 : Int) ≤ 4 ∧ (4 : Int) < 2147483647 ∧ renderM wrapped 7 4 = .ok (render 4) ∧
      ((lines (render 4)).length : Int) = 2 * mid 4 - 1 ∧
      ((lines (render 4)).length : Int) = 4 - 1 :=
  ⟨by decide, by decide,
   ((C4_line_count 4 (by decide) (by decide)).1 7 (by decide)).1,
   (C4_line_count 4 (by decide) (by decide)).2.2.2.1,
   (C4_line_count 4 (by decide) (by decide)).2.2.2.2.2.2.2.2.2 (by decide)⟩

/-- C19 (amended): for a 32-bit `n` with `-2^31 ≤ n < 2^31 - 1`, line 7 computes,
without overflow, `mid = (n + 1) / 2` rounded toward zero. It is the floor of
`(n + 1) / 2` when `n ≥ -1` and when `n` is odd; when `n < -1` is even it is the
floor plus one. -/
theorem C19_mid_truncates (n : Int) (h1 : -2147483648 ≤ n) (h2 : n < 2147483647) :
    midM wrapped n = .ok (mid n) ∧ midM checked n = .ok (mid n) ∧
    (-1 ≤ n → mid n = ⌊(((n + 1 : Int) : ℚ) / 2)⌋) ∧
    (n % 2 = 1 → mid n = ⌊(((n + 1 : Int) : ℚ) / 2)⌋) ∧
    (n < -1 → n % 2 = 0 → mid n = ⌊(((n + 1 : Int) : ℚ) / 2)⌋ + 1) ∧
    (0 ≤ n + 1 → 0 ≤ mid n ∧ 2 * mid n ≤ n + 1 ∧ n + 1 < 2 * mid n + 2) ∧
    (n + 1 < 0 → mid n ≤ 0 ∧ n + 1 ≤ 2 * mid n ∧ 2 * mid n < n + 1 + 2) := by
  rw [floor_half]
  refine ⟨midM_eq wrapped n wrapped_of_inRange h1 h2,
    midM_eq checked n checked_of_inRange h1 h2, ?_, ?_, ?_, ?_, ?_⟩
  · intro h; exact mid_eq_ediv n (by omega)
  · intro hodd
    by_cases h : 0 ≤ n + 1
    · exact mid_eq_ediv n h
    · rw [mid_of_neg n (by omega)]; omega
  · intro h heven
    rw [mid_of_neg n (by omega)]; omega
  · intro h
    rw [mid_eq_ediv n h]; omega
  · intro h
    rw [mid_of_neg n h]; omega

/-- Witness of C19 (amended) at `n = -4` (even, below -1): the program computes
`-1`, the floor `-2` plus one. -/
theorem C19_mid_truncates_witness :
    (-2147483648 : Int) ≤ -4 ∧ (-4 : Int) < 2147483647 ∧
    (-4 : Int) < -1 ∧ (-4 : Int) % 2 = 0 ∧
    midM wrapped (-4) = .ok (mid (-4)) ∧ mid (-4) = -1 ∧
    mid (-4) = ⌊((((-4 : Int) + 1 : Int) : ℚ) / 2)⌋ + 1 :=
  ⟨by decide, by decide, by decide, by decide,
   (C19_mid_truncates (-4) (by decide) (by decide)).1, by decide,
   (C19_mid_truncates (-4) (by decide) (by decide)).2.2.2.2.1 (by decide) (by decide)⟩

end Butterfly
